import Mathlib

/-!
Shallow embedding of `ftx.py`: a grid-trading bot for the FTX exchange.
The file models, directly from the source:
  * `FtxClient._process_response` (response-envelope handling),
  * `FtxClient._sign_request` (request signing and headers),
  * `FtxClient.get_all_trades` (backward pagination with dedup),
  * the helpers `get_max_order_price`, `get_min_order_price`,
    `get_orders_of_side`,
  * one poll tick of `run_sell` and `run_buy` as event-trace producers,
  * the module's top level, which calls an undefined name `run`.
Prices and rates are rationals; timestamps are naturals; byte strings are
lists of naturals.
-/

namespace Ftx

/-! ## Response envelope handling (`FtxClient._process_response`) -/

/-- The JSON envelope `{success, result, error}` returned by the exchange,
with the `result` payload abstracted by a type parameter. -/
structure Envelope (α : Type) where
  success : Bool
  result : α
  error : String
deriving DecidableEq

/-- The exceptions `_process_response` can raise.  `valueError` is the JSON
decode error re-raised by the bare `raise`; `httpError` is what
`response.raise_for_status()` raises for a status ≥ 400 (it carries the
status code and the response text); `exception` is Python's builtin generic
`Exception` — the source defines no typed exception class of its own. -/
inductive PyErr where
  | valueError : PyErr
  | httpError : Nat → String → PyErr
  | exception : String → PyErr
deriving DecidableEq

/-- `exception` models the builtin generic `Exception` class; the other
constructors model distinct (typed) exception classes. -/
def PyErr.isGenericException : PyErr → Bool
  | .exception _ => true
  | _ => false

/-- An HTTP response as `_process_response` sees it: the status code, the
body text, and the result of attempting to parse the body as a JSON
envelope (`none` when the body is not parseable JSON). -/
structure HttpResponse (α : Type) where
  status : Nat
  text : String
  jsonBody : Option (Envelope α)
deriving DecidableEq

/-- `requests`' `Response.raise_for_status`): raises `HTTPError` carrying
the status code and text exactly when the status is 4xx or 5xx. -/
def raiseForStatus (status : Nat) (text : String) : Option PyErr :=
  if 400 ≤ status then some (.httpError status text) else none

/-- `FtxClient._process_response`, lines 49-59: try `response.json()`; on a
parse failure run `raise_for_status()` and then re-raise the parse error;
otherwise raise `Exception(data[..error..])` when `success` is false and
return `data[..result..]` when it is true. -/
def processResponse {α : Type} (r : HttpResponse α) : Except PyErr α :=
  match r.jsonBody with
  | none =>
      match raiseForStatus r.status r.text with
      | some e => .error e
      | none => .error .valueError
  | some data =>
      if data.success = false then .error (.exception data.error)
      else .ok data.result

/-! ## Request signing (`FtxClient._sign_request`) -/

/-- Bytes of a string (codepoints; the source's `str.encode()`/UTF-8 agree
on the ASCII inputs involved). -/
def strBytes (s : String) : List Nat :=
  s.toList.map Char.toNat

/-- A prepared request as `_sign_request` reads it: the HTTP method, the
path with query string (`prepared.path_url`), and the raw body bytes
(`prepared.body`, absent for body-less requests). -/
structure PreparedRequest where
  method : String
  pathUrl : String
  body : Option (List Nat)
deriving DecidableEq

/-- Lines 38-40: `signature_payload = f'{ts}{method}{path_url}'.encode()`,
then `if prepared.body: signature_payload += prepared.body`. -/
def signaturePayload (ts : Nat) (req : PreparedRequest) : List Nat :=
  let base := strBytes (toString ts ++ req.method ++ req.pathUrl)
  match req.body with
  | some bs => if bs = [] then base else base ++ bs
  | none => base

/-- Upper-case hex digit of a value below 16, as `urllib.parse.quote`
produces. -/
def hexDigit (n : Nat) : Char :=
  if n < 10 then Char.ofNat (48 + n) else Char.ofNat (55 + n)

/-- Characters `urllib.parse.quote` leaves unescaped by default:
alphanumerics, `_.-~` and `/`. -/
def isQuoteSafe (c : Char) : Bool :=
  c.isAlphanum || c = '_' || c = '.' || c = '-' || c = '~' || c = '/'

/-- `urllib.parse.quote` on one character. -/
def quoteChar (c : Char) : List Char :=
  if isQuoteSafe c then [c]
  else ['%', hexDigit (c.toNat / 16), hexDigit (c.toNat % 16)]

/-- `urllib.parse.quote` with its default safe set (modelled on ASCII
input, which subaccount names are). -/
def urlQuote (s : String) : String :=
  ⟨(s.toList.map quoteChar).flatten⟩

/-- The headers `_sign_request` attaches.  `subaccountHeader` is `none`
when the `FTX-SUBACCOUNT` header is not attached. -/
structure SignedHeaders where
  keyHeader : String
  signHeader : String
  tsHeader : String
  subaccountHeader : Option String
deriving DecidableEq

/-- `FtxClient._sign_request`, lines 35-47, with the HMAC-SHA256 hex-digest
primitive `hmacHex : secret → payload → digest` passed in as a function
(the source calls `hmac.new(secret.encode(), payload, 'sha256').hexdigest()`).
The subaccount header is attached only when `_subaccount_name` is truthy,
i.e. present and non-empty. -/
def signRequest (hmacHex : String → List Nat → String)
    (apiKey apiSecret : String) (subaccountName : Option String)
    (ts : Nat) (req : PreparedRequest) : SignedHeaders :=
  let signature := hmacHex apiSecret (signaturePayload ts req)
  { keyHeader := apiKey
    signHeader := signature
    tsHeader := toString ts
    subaccountHeader :=
      match subaccountName with
      | some s => if s = "" then none else some (urlQuote s)
      | none => none }

/-! ## Order helpers (lines 197-222) -/

/-- An open order as the engine reads it: its `side` field (`"buy"` or
`"sell"`) and its `price` field. -/
structure Order where
  side : String
  price : ℚ
deriving DecidableEq

/-- `get_max_order_price`, lines 197-205: fold over the orders, starting
from the sentinel `0.0`, keeping the largest price whose side matches. -/
def getMaxOrderPrice (orders : List Order) (side : String) : ℚ :=
  orders.foldl
    (fun acc o => if o.side = side ∧ acc < o.price then o.price else acc) 0

/-- `get_min_order_price`, lines 207-215: fold over the orders, starting
from the sentinel `999999`, keeping the smallest price whose side
matches. -/
def getMinOrderPrice (orders : List Order) (side : String) : ℚ :=
  orders.foldl
    (fun acc o => if o.side = side ∧ o.price < acc then o.price else acc) 999999

/-- `get_orders_of_side`, lines 217-222: the orders whose side matches. -/
def getOrdersOfSide (orders : List Order) (side : String) : List Order :=
  orders.filter (fun o => o.side = side)

/-! ## One poll tick of the trading loops (`run_sell` lines 224-261,
`run_buy` lines 263-300)

A tick is modelled as the list of observable events it produces.  The
environment of a tick supplies what the exchange returns on that tick:
whether the two reads succeed, the best bid `prices['bids'][0][0]` and
best ask `prices['asks'][0][0]`, whether the first (seed) `place_order`
call succeeds, and how many times the hedge `place_order` call fails
before it succeeds (the hedge loop retries until success). -/

/-- An observable event of a tick: the `time.sleep(2)`+fetch at the top of
the loop, a `place_order` call (side, price, size, success), the
`time.sleep(1)` in the hedge retry loop, and the `AttributeError` raised
by looking up a missing attribute name on the client. -/
inductive Event where
  | poll : Event
  | place : String → ℚ → ℚ → Bool → Event
  | sleep1 : Event
  | attrError : String → Event
deriving DecidableEq

/-- The per-tick environment (everything the exchange decides). -/
structure TickInput where
  fetchOk : Bool
  bid : ℚ
  ask : ℚ
  seedOk : Bool
  hedgeFailures : Nat
deriving DecidableEq

/-- The hedge retry loop (`while True: try place_order … except: sleep(1);
continue; break`), given that it fails `n` times before succeeding:
`n` failed placements each followed by the 1-second sleep, then the one
successful placement. -/
def hedgeEvents (side : String) (price qty : ℚ) : Nat → List Event
  | 0 => [.place side price qty true]
  | n + 1 => .place side price qty false :: .sleep1 :: hedgeEvents side price qty n

/-- One iteration of `run_sell`'s `while True` loop (lines 225-261), given
the environment `inp` and the open orders the fetch returned.  `number` is
the configured order size, `rate` the step rate, `uprate` the trigger
rate. -/
def sellTick (number rate uprate : ℚ) (inp : TickInput)
    (openOrders : List Order) : List Event :=
  if inp.fetchOk = false then [.poll]
  else
    let buyOrders := getOrdersOfSide openOrders "buy"
    if buyOrders.length = 0 then
      .poll :: .place "sell" inp.bid number inp.seedOk ::
        (if inp.seedOk then
          hedgeEvents "buy" (inp.bid * (1 - rate)) number inp.hedgeFailures
         else [])
    else if 5 ≤ buyOrders.length then [.poll]
    else
      let currentPrice := inp.bid
      let signPrice := getMaxOrderPrice openOrders "buy" * (1 + uprate)
      if signPrice < currentPrice then
        .poll :: .place "sell" currentPrice number inp.seedOk ::
          (if inp.seedOk then
            hedgeEvents "buy" (currentPrice * (1 - rate)) number inp.hedgeFailures
           else [])
      else [.poll]

/-- One iteration of `run_buy`'s `while True` loop (lines 264-300).  In the
seed branch the source calls `fc.palce_order` (line 274), an attribute
that does not exist on `FtxClient`; the lookup raises `AttributeError`
before any order is sent, the surrounding `except Exception` catches it,
and the loop continues — so that branch never places anything. -/
def buyTick (number rate uprate : ℚ) (inp : TickInput)
    (openOrders : List Order) : List Event :=
  if inp.fetchOk = false then [.poll]
  else
    let sellOrders := getOrdersOfSide openOrders "sell"
    if sellOrders.length = 0 then
      [.poll, .attrError "palce_order"]
    else if 5 ≤ sellOrders.length then [.poll]
    else
      let currentPrice := inp.ask
      let signPrice := getMinOrderPrice openOrders "sell" * (1 - uprate)
      if currentPrice < signPrice then
        .poll :: .place "buy" currentPrice number inp.seedOk ::
          (if inp.seedOk then
            hedgeEvents "sell" (currentPrice * (1 + rate)) number inp.hedgeFailures
           else [])
      else [.poll]

/-- Effect of a tick's events on the exchange's open-order set when no
order fills or is cancelled between ticks: every successful placement adds
an open order. -/
def applyEvents (orders : List Order) : List Event → List Order
  | [] => orders
  | .place side price _ true :: rest => applyEvents (orders ++ [⟨side, price⟩]) rest
  | _ :: rest => applyEvents orders rest

/-- A run of `run_sell` ticks: each tick fetches the current open-order
set, and its successful placements are reflected in the set the next tick
fetches. -/
def runSellTicks (number rate uprate : ℚ) (orders : List Order) :
    List TickInput → List Order
  | [] => orders
  | inp :: rest =>
      runSellTicks number rate uprate
        (applyEvents orders (sellTick number rate uprate inp orders)) rest

/-! ## Paginated trade fetcher (`FtxClient.get_all_trades`, lines 165-183) -/

/-- A trade as the fetcher reads it: its `id` (the dedup key) and the
timestamp `parse_datetime(t['time']).timestamp()` (parsing an ISO-8601
string and taking its numeric timestamp is order-preserving, so the
timestamp is modelled directly as a natural). -/
structure Trade where
  id : Nat
  time : Nat
deriving DecidableEq

/-- `min(parse_datetime(t['time']) for t in response).timestamp()` on a
nonempty page. -/
def minTime : List Trade → Nat
  | [] => 0
  | t :: ts => ts.foldl (fun acc x => min acc x.time) t.time

/-- The body of `get_all_trades`' `while True` loop, fed the successive
pages the endpoint returns (one page per request made).  `ids` is the
`ids` set, `acc` the `results` list, `endTime` the `end_time` passed to
the current request.  Returns the final `results` together with the
`end_time` value used by each request actually made.  The loop body:
filter out trades whose id was already seen, append the rest, add their
ids; break on an empty page; set `end_time` to the minimum timestamp of
the page; break on a page shorter than `limit = 100`. -/
def getAllTradesAux (ids : List Nat) (acc : List Trade) (endTime : Option Nat) :
    List (List Trade) → List Trade × List (Option Nat)
  | [] => (acc, [])
  | page :: rest =>
      let deduped := page.filter (fun r => r.id ∉ ids)
      let acc1 := acc ++ deduped
      let ids1 := ids ++ deduped.map Trade.id
      if page.length = 0 then (acc1, [endTime])
      else if page.length < 100 then (acc1, [endTime])
      else
        let r := getAllTradesAux ids1 acc1 (some (minTime page)) rest
        (r.1, endTime :: r.2)

/-- `get_all_trades` with `start_time`/`end_time` omitted: initial empty
`ids` and `results`, initial `end_time = None`. -/
def getAllTrades (pages : List (List Trade)) : List Trade :=
  (getAllTradesAux [] [] none pages).1

/-- The `end_time` argument of each request `get_all_trades` makes. -/
def requestEndTimes (pages : List (List Trade)) : List (Option Nat) :=
  (getAllTradesAux [] [] none pages).2

/-- How many requests `get_all_trades` makes against the page stream. -/
def numRequests (pages : List (List Trade)) : Nat :=
  (requestEndTimes pages).length

/-- The pages `get_all_trades` actually fetched. -/
def fetchedPages (pages : List (List Trade)) : List (List Trade) :=
  pages.take (numRequests pages)

/-! ## Module top level (lines 187-195, 301) -/

/-- The global names bound at module level when execution reaches line 301
(imports aside): the class, the six command-line values, the client
instance, the three helpers, and the two loop functions. -/
def moduleGlobals : List String :=
  ["FtxClient", "apiKey", "secretKey", "coin", "number", "rate", "uprate",
   "fc", "get_max_order_price", "get_min_order_price", "get_orders_of_side",
   "run_sell", "run_buy"]

/-- The name the final statement `run(coin, number, rate, uprate)` looks
up. -/
def finalCallName : String := "run"

/-- Outcome of the module's final statement: Python resolves the name
against the module globals (and builtins, which define no `run`); an
unbound name raises `NameError` and no loop function is entered. -/
inductive StartupOutcome where
  | nameError : String → StartupOutcome
  | enteredLoop : String → StartupOutcome
deriving DecidableEq

/-- Executing line 301. -/
def startupResult : StartupOutcome :=
  if finalCallName ∈ moduleGlobals then .enteredLoop finalCallName
  else .nameError finalCallName

/-! ## Helper lemmas -/

/-- Closed form of the hedge retry loop's event trace. -/
lemma hedgeEvents_eq_replicate (side : String) (price qty : ℚ) (n : Nat) :
    hedgeEvents side price qty n =
      (List.replicate n [Event.place side price qty false, Event.sleep1]).flatten
        ++ [Event.place side price qty true] := by
  induction n with
  | zero => rfl
  | succ n ih => simp [hedgeEvents, ih, List.replicate_succ]

/-- Every event of the hedge retry loop is a sleep or a placement of the
hedge order itself. -/
lemma mem_hedgeEvents (side : String) (price qty : ℚ) (n : Nat) (ev : Event)
    (h : ev ∈ hedgeEvents side price qty n) :
    ev = Event.sleep1 ∨ ∃ b, ev = Event.place side price qty b := by
  induction n with
  | zero =>
      simp only [hedgeEvents, List.mem_singleton] at h
      exact Or.inr ⟨true, h⟩
  | succ n ih =>
      simp only [hedgeEvents, List.mem_cons] at h
      rcases h with h | h | h
      · exact Or.inr ⟨false, h⟩
      · exact Or.inl h
      · exact ih h

/-- The hedge retry loop never polls. -/
lemma poll_not_mem_hedgeEvents (side : String) (price qty : ℚ) (n : Nat) :
    Event.poll ∉ hedgeEvents side price qty n := by
  intro h
  rcases mem_hedgeEvents side price qty n _ h with h | ⟨b, h⟩ <;> exact Event.noConfusion h

/-- `run_sell` tick, fetch-failure branch. -/
lemma sellTick_fetchFail (number rate uprate : ℚ) (inp : TickInput)
    (orders : List Order) (hf : inp.fetchOk = false) :
    sellTick number rate uprate inp orders = [Event.poll] := by
  simp [sellTick, hf]

/-- `run_sell` tick, seeding branch: no open buy order. -/
lemma sellTick_seed (number rate uprate : ℚ) (inp : TickInput)
    (orders : List Order) (hf : inp.fetchOk = true)
    (h0 : getOrdersOfSide orders "buy" = []) :
    sellTick number rate uprate inp orders =
      Event.poll :: Event.place "sell" inp.bid number inp.seedOk ::
        (if inp.seedOk then
          hedgeEvents "buy" (inp.bid * (1 - rate)) number inp.hedgeFailures
         else []) := by
  simp [sellTick, hf, h0]

/-- `run_sell` tick, full-ladder branch: five or more open buy orders. -/
lemma sellTick_full (number rate uprate : ℚ) (inp : TickInput)
    (orders : List Order) (hf : inp.fetchOk = true)
    (h5 : 5 ≤ (getOrdersOfSide orders "buy").length) :
    sellTick number rate uprate inp orders = [Event.poll] := by
  have h0 : ¬ (getOrdersOfSide orders "buy").length = 0 := by omega
  simp [sellTick, hf, h0, h5]

/-- `run_sell` tick, trigger branch, threshold crossed. -/
lemma sellTick_trigger_hit (number rate uprate : ℚ) (inp : TickInput)
    (orders : List Order) (hf : inp.fetchOk = true)
    (hne : (getOrdersOfSide orders "buy").length ≠ 0)
    (hlt : (getOrdersOfSide orders "buy").length < 5)
    (hgt : getMaxOrderPrice orders "buy" * (1 + uprate) < inp.bid) :
    sellTick number rate uprate inp orders =
      Event.poll :: Event.place "sell" inp.bid number inp.seedOk ::
        (if inp.seedOk then
          hedgeEvents "buy" (inp.bid * (1 - rate)) number inp.hedgeFailures
         else []) := by
  have h5 : ¬ 5 ≤ (getOrdersOfSide orders "buy").length := by omega
  simp [sellTick, hf, hne, h5, hgt]

/-- `run_sell` tick, trigger branch, threshold not crossed. -/
lemma sellTick_trigger_miss (number rate uprate : ℚ) (inp : TickInput)
    (orders : List Order) (hf : inp.fetchOk = true)
    (hne : (getOrdersOfSide orders "buy").length ≠ 0)
    (hlt : (getOrdersOfSide orders "buy").length < 5)
    (hle : ¬ getMaxOrderPrice orders "buy" * (1 + uprate) < inp.bid) :
    sellTick number rate uprate inp orders = [Event.poll] := by
  have h5 : ¬ 5 ≤ (getOrdersOfSide orders "buy").length := by omega
  simp [sellTick, hf, hne, h5, hle]

/-- `run_buy` tick, fetch-failure branch. -/
lemma buyTick_fetchFail (number rate uprate : ℚ) (inp : TickInput)
    (orders : List Order) (hf : inp.fetchOk = false) :
    buyTick number rate uprate inp orders = [Event.poll] := by
  simp [buyTick, hf]

/-- `run_buy` tick, seed branch: the `fc.palce_order` lookup raises. -/
lemma buyTick_seed (number rate uprate : ℚ) (inp : TickInput)
    (orders : List Order) (hf : inp.fetchOk = true)
    (h0 : getOrdersOfSide orders "sell" = []) :
    buyTick number rate uprate inp orders =
      [Event.poll, Event.attrError "palce_order"] := by
  simp [buyTick, hf, h0]

/-- `run_buy` tick, full-ladder branch. -/
lemma buyTick_full (number rate uprate : ℚ) (inp : TickInput)
    (orders : List Order) (hf : inp.fetchOk = true)
    (h5 : 5 ≤ (getOrdersOfSide orders "sell").length) :
    buyTick number rate uprate inp orders = [Event.poll] := by
  have h0 : ¬ (getOrdersOfSide orders "sell").length = 0 := by omega
  simp [buyTick, hf, h0, h5]

/-- `run_buy` tick, trigger branch, threshold crossed. -/
lemma buyTick_trigger_hit (number rate uprate : ℚ) (inp : TickInput)
    (orders : List Order) (hf : inp.fetchOk = true)
    (hne : (getOrdersOfSide orders "sell").length ≠ 0)
    (hlt : (getOrdersOfSide orders "sell").length < 5)
    (hgt : inp.ask < getMinOrderPrice orders "sell" * (1 - uprate)) :
    buyTick number rate uprate inp orders =
      Event.poll :: Event.place "buy" inp.ask number inp.seedOk ::
        (if inp.seedOk then
          hedgeEvents "sell" (inp.ask * (1 + rate)) number inp.hedgeFailures
         else []) := by
  have h5 : ¬ 5 ≤ (getOrdersOfSide orders "sell").length := by omega
  simp [buyTick, hf, hne, h5, hgt]

/-- `run_buy` tick, trigger branch, threshold not crossed. -/
lemma buyTick_trigger_miss (number rate uprate : ℚ) (inp : TickInput)
    (orders : List Order) (hf : inp.fetchOk = true)
    (hne : (getOrdersOfSide orders "sell").length ≠ 0)
    (hlt : (getOrdersOfSide orders "sell").length < 5)
    (hle : ¬ inp.ask < getMinOrderPrice orders "sell" * (1 - uprate)) :
    buyTick number rate uprate inp orders = [Event.poll] := by
  have h5 : ¬ 5 ≤ (getOrdersOfSide orders "sell").length := by omega
  simp [buyTick, hf, hne, h5, hle]

/-- Number of successful placements on a given side in an event list. -/
def countSuccPlaces (side : String) : List Event → Nat
  | [] => 0
  | Event.place s _ _ true :: rest =>
      (if s = side then 1 else 0) + countSuccPlaces side rest
  | _ :: rest => countSuccPlaces side rest

lemma getOrdersOfSide_append (orders : List Order) (o : Order) (side : String) :
    getOrdersOfSide (orders ++ [o]) side =
      getOrdersOfSide orders side ++ (if o.side = side then [o] else []) := by
  simp only [getOrdersOfSide, List.filter_append]
  by_cases h : o.side = side <;> simp [h]

/-- Applying an event list grows a side's open-order count by exactly the
number of successful placements on that side. -/
lemma length_getOrdersOfSide_applyEvents (side : String) (evs : List Event) :
    ∀ orders : List Order,
      (getOrdersOfSide (applyEvents orders evs) side).length =
        (getOrdersOfSide orders side).length + countSuccPlaces side evs := by
  induction evs with
  | nil => intro orders; simp [applyEvents, countSuccPlaces]
  | cons ev rest ih =>
      intro orders
      match ev with
      | Event.poll => simpa [applyEvents, countSuccPlaces] using ih orders
      | Event.sleep1 => simpa [applyEvents, countSuccPlaces] using ih orders
      | Event.attrError s => simpa [applyEvents, countSuccPlaces] using ih orders
      | Event.place s p q false => simpa [applyEvents, countSuccPlaces] using ih orders
      | Event.place s p q true =>
          simp only [applyEvents, countSuccPlaces, ih (orders ++ [⟨s, p⟩]),
            getOrdersOfSide_append]
          by_cases h : s = side
          · simp [h]; omega
          · simp [h]

/-- The hedge retry loop makes exactly one successful placement, on the
hedge side. -/
lemma countSuccPlaces_hedgeEvents (side s : String) (p q : ℚ) (n : Nat) :
    countSuccPlaces side (hedgeEvents s p q n) = if s = side then 1 else 0 := by
  induction n with
  | zero => simp [hedgeEvents, countSuccPlaces]
  | succ n ih => simp [hedgeEvents, countSuccPlaces, ih]

/-- One `run_sell` tick makes at most one successful buy placement, and
none at all when five or more buy orders are already open. -/
lemma countSuccPlaces_buy_sellTick (number rate uprate : ℚ) (inp : TickInput)
    (orders : List Order) :
    countSuccPlaces "buy" (sellTick number rate uprate inp orders) ≤
      if (getOrdersOfSide orders "buy").length < 5 then 1 else 0 := by
  by_cases hf : inp.fetchOk = true
  · by_cases h0 : getOrdersOfSide orders "buy" = []
    · rw [sellTick_seed number rate uprate inp orders hf h0]
      have hlen : (getOrdersOfSide orders "buy").length = 0 := by rw [h0]; rfl
      by_cases hs : inp.seedOk = true <;>
        simp [countSuccPlaces, hs, countSuccPlaces_hedgeEvents, hlen]
    · have hne : (getOrdersOfSide orders "buy").length ≠ 0 := by
        intro h; exact h0 (List.length_eq_zero.mp h)
      by_cases h5 : 5 ≤ (getOrdersOfSide orders "buy").length
      · rw [sellTick_full number rate uprate inp orders hf h5]
        simp [countSuccPlaces]
      · have hlt : (getOrdersOfSide orders "buy").length < 5 := by omega
        by_cases hgt : getMaxOrderPrice orders "buy" * (1 + uprate) < inp.bid
        · rw [sellTick_trigger_hit number rate uprate inp orders hf hne hlt hgt]
          by_cases hs : inp.seedOk = true <;>
            simp [countSuccPlaces, hs, countSuccPlaces_hedgeEvents, hlt]
        · rw [sellTick_trigger_miss number rate uprate inp orders hf hne hlt hgt]
          simp [countSuccPlaces]
  · rw [sellTick_fetchFail number rate uprate inp orders (by
      cases h : inp.fetchOk
      · rfl
      · exact absurd h hf)]
    simp [countSuccPlaces]

/-- One `run_sell` tick preserves "at most five open buy orders". -/
lemma sellTick_preserves_buy_cap (number rate uprate : ℚ) (inp : TickInput)
    (orders : List Order)
    (hcap : (getOrdersOfSide orders "buy").length ≤ 5) :
    (getOrdersOfSide
        (applyEvents orders (sellTick number rate uprate inp orders)) "buy").length ≤ 5 := by
  rw [length_getOrdersOfSide_applyEvents]
  have h := countSuccPlaces_buy_sellTick number rate uprate inp orders
  by_cases hlt : (getOrdersOfSide orders "buy").length < 5 <;> (simp [hlt] at h; omega)

/-- Across any run of `run_sell` ticks (with the open-order set updated by
the tick's own successful placements), the buy-order count never exceeds
five. -/
lemma runSellTicks_buy_cap (number rate uprate : ℚ) (inps : List TickInput) :
    ∀ orders : List Order, (getOrdersOfSide orders "buy").length ≤ 5 →
      (getOrdersOfSide (runSellTicks number rate uprate orders inps) "buy").length ≤ 5 := by
  induction inps with
  | nil => intro orders hcap; simpa [runSellTicks] using hcap
  | cons inp rest ih =>
      intro orders hcap
      exact ih _ (sellTick_preserves_buy_cap number rate uprate inp orders hcap)

/-- If a `run_sell` tick contains a successful sell (rung) placement, the
placement used the configured size, and the whole tick is: the poll, that
placement, then the hedge-buy retry loop at the rung price times
`1 - rate` — nothing else. -/
lemma sellTick_succ_sell (number rate uprate : ℚ) (inp : TickInput)
    (orders : List Order) (p q : ℚ)
    (h : Event.place "sell" p q true ∈ sellTick number rate uprate inp orders) :
    q = number ∧
    sellTick number rate uprate inp orders =
      Event.poll :: Event.place "sell" p number true ::
        hedgeEvents "buy" (p * (1 - rate)) number inp.hedgeFailures := by
  by_cases hf : inp.fetchOk = true
  case neg =>
    have hf' : inp.fetchOk = false := by
      cases hx : inp.fetchOk
      · rfl
      · exact absurd hx hf
    rw [sellTick_fetchFail number rate uprate inp orders hf'] at h
    exact absurd h (by simp)
  case pos =>
  by_cases h0 : getOrdersOfSide orders "buy" = []
  · rw [sellTick_seed number rate uprate inp orders hf h0] at h ⊢
    by_cases hs : inp.seedOk = true
    · rw [hs] at h ⊢
      simp only [if_true, List.mem_cons] at h
      rcases h with hh | hh | hh
      · exact absurd hh (by simp)
      · have hpq : p = inp.bid ∧ q = number := by simpa using hh
        obtain ⟨hp, hq⟩ := hpq
        subst hp; subst hq
        exact ⟨rfl, rfl⟩
      · rcases mem_hedgeEvents _ _ _ _ _ hh with hx | ⟨b, hx⟩
        · exact absurd hx (by simp)
        · exact absurd hx (by simp)
    · have hs' : inp.seedOk = false := by
        cases hx : inp.seedOk
        · rfl
        · exact absurd hx hs
      rw [hs'] at h
      simp only [Bool.false_eq_true, if_false, List.mem_cons] at h
      rcases h with hh | hh | hh
      · exact absurd hh (by simp)
      · exact absurd hh (by simp)
      · exact absurd hh (by simp)
  · have hne : (getOrdersOfSide orders "buy").length ≠ 0 := by
      intro hx; exact h0 (List.length_eq_zero.mp hx)
    by_cases h5 : 5 ≤ (getOrdersOfSide orders "buy").length
    · rw [sellTick_full number rate uprate inp orders hf h5] at h
      exact absurd h (by simp)
    · have hlt : (getOrdersOfSide orders "buy").length < 5 := by omega
      by_cases hgt : getMaxOrderPrice orders "buy" * (1 + uprate) < inp.bid
      · rw [sellTick_trigger_hit number rate uprate inp orders hf hne hlt hgt] at h ⊢
        by_cases hs : inp.seedOk = true
        · rw [hs] at h ⊢
          simp only [if_true, List.mem_cons] at h
          rcases h with hh | hh | hh
          · exact absurd hh (by simp)
          · have hpq : p = inp.bid ∧ q = number := by simpa using hh
            obtain ⟨hp, hq⟩ := hpq
            subst hp; subst hq
            exact ⟨rfl, rfl⟩
          · rcases mem_hedgeEvents _ _ _ _ _ hh with hx | ⟨b, hx⟩
            · exact absurd hx (by simp)
            · exact absurd hx (by simp)
        · have hs' : inp.seedOk = false := by
            cases hx : inp.seedOk
            · rfl
            · exact absurd hx hs
          rw [hs'] at h
          simp only [Bool.false_eq_true, if_false, List.mem_cons] at h
          rcases h with hh | hh | hh
          · exact absurd hh (by simp)
          · exact absurd hh (by simp)
          · exact absurd hh (by simp)
      · rw [sellTick_trigger_miss number rate uprate inp orders hf hne hlt hgt] at h
        exact absurd h (by simp)

/-- If a `run_buy` tick contains a successful buy (rung) placement, the
placement used the configured size, and the whole tick is: the poll, that
placement, then the hedge-sell retry loop at the rung price times
`1 + rate` — nothing else. -/
lemma buyTick_succ_buy (number rate uprate : ℚ) (inp : TickInput)
    (orders : List Order) (p q : ℚ)
    (h : Event.place "buy" p q true ∈ buyTick number rate uprate inp orders) :
    q = number ∧
    buyTick number rate uprate inp orders =
      Event.poll :: Event.place "buy" p number true ::
        hedgeEvents "sell" (p * (1 + rate)) number inp.hedgeFailures := by
  by_cases hf : inp.fetchOk = true
  case neg =>
    have hf' : inp.fetchOk = false := by
      cases hx : inp.fetchOk
      · rfl
      · exact absurd hx hf
    rw [buyTick_fetchFail number rate uprate inp orders hf'] at h
    exact absurd h (by simp)
  case pos =>
  by_cases h0 : getOrdersOfSide orders "sell" = []
  · rw [buyTick_seed number rate uprate inp orders hf h0] at h
    simp only [List.mem_cons] at h
    rcases h with hh | hh | hh
    · exact absurd hh (by simp)
    · exact absurd hh (by simp)
    · exact absurd hh (by simp)
  · have hne : (getOrdersOfSide orders "sell").length ≠ 0 := by
      intro hx; exact h0 (List.length_eq_zero.mp hx)
    by_cases h5 : 5 ≤ (getOrdersOfSide orders "sell").length
    · rw [buyTick_full number rate uprate inp orders hf h5] at h
      exact absurd h (by simp)
    · have hlt : (getOrdersOfSide orders "sell").length < 5 := by omega
      by_cases hgt : inp.ask < getMinOrderPrice orders "sell" * (1 - uprate)
      · rw [buyTick_trigger_hit number rate uprate inp orders hf hne hlt hgt] at h ⊢
        by_cases hs : inp.seedOk = true
        · rw [hs] at h ⊢
          simp only [if_true, List.mem_cons] at h
          rcases h with hh | hh | hh
          · exact absurd hh (by simp)
          · have hpq : p = inp.ask ∧ q = number := by simpa using hh
            obtain ⟨hp, hq⟩ := hpq
            subst hp; subst hq
            exact ⟨rfl, rfl⟩
          · rcases mem_hedgeEvents _ _ _ _ _ hh with hx | ⟨b, hx⟩
            · exact absurd hx (by simp)
            · exact absurd hx (by simp)
        · have hs' : inp.seedOk = false := by
            cases hx : inp.seedOk
            · rfl
            · exact absurd hx hs
          rw [hs'] at h
          simp only [Bool.false_eq_true, if_false, List.mem_cons] at h
          rcases h with hh | hh | hh
          · exact absurd hh (by simp)
          · exact absurd hh (by simp)
          · exact absurd hh (by simp)
      · rw [buyTick_trigger_miss number rate uprate inp orders hf hne hlt hgt] at h
        exact absurd h (by simp)

/-- The ids of the fetcher's accumulated result list track the `ids` set,
so the result never repeats an id. -/
lemma getAllTradesAux_nodup (pages : List (List Trade)) :
    ∀ (ids : List Nat) (acc : List Trade) (et : Option Nat),
      acc.map Trade.id = ids →
      (∀ p ∈ pages, (p.map Trade.id).Nodup) →
      ids.Nodup →
      ((getAllTradesAux ids acc et pages).1.map Trade.id).Nodup := by
  induction pages with
  | nil =>
      intro ids acc et hacc hp hnd
      rw [getAllTradesAux, hacc]
      exact hnd
  | cons page rest ih =>
      intro ids acc et hacc hp hnd
      have hpage : (page.map Trade.id).Nodup := hp page (List.mem_cons_self _ _)
      have hd1 : ((page.filter (fun r => r.id ∉ ids)).map Trade.id).Nodup :=
        hpage.sublist ((List.filter_sublist page).map Trade.id)
      have hd2 : ∀ x ∈ (page.filter (fun r => r.id ∉ ids)).map Trade.id, x ∉ ids := by
        intro x hx
        simp only [List.mem_map] at hx
        obtain ⟨t, ht, rfl⟩ := hx
        simpa using List.of_mem_filter ht
      have hids1 : (ids ++ (page.filter (fun r => r.id ∉ ids)).map Trade.id).Nodup := by
        rw [List.nodup_append]
        exact ⟨hnd, hd1, fun x hx hx2 => hd2 x hx2 hx⟩
      have hacc1 : (acc ++ page.filter (fun r => r.id ∉ ids)).map Trade.id
          = ids ++ (page.filter (fun r => r.id ∉ ids)).map Trade.id := by
        rw [List.map_append, hacc]
      by_cases hz : page.length = 0
      · simp only [getAllTradesAux, if_pos hz]
        rw [hacc1]
        exact hids1
      · by_cases hl : page.length < 100
        · simp only [getAllTradesAux, if_neg hz, if_pos hl]
          rw [hacc1]
          exact hids1
        · simp only [getAllTradesAux, if_neg hz, if_neg hl]
          exact ih _ _ _ hacc1 (fun p hp2 => hp p (List.mem_cons_of_mem _ hp2)) hids1

/-- Adding the not-yet-seen ids of a page to the seen set gives exactly
the union with the full page's ids. -/
lemma toFinset_ids_filter (page : List Trade) (ids : List Nat) :
    (ids ++ (page.filter (fun r => r.id ∉ ids)).map Trade.id).toFinset
      = ids.toFinset ∪ (page.map Trade.id).toFinset := by
  ext x
  simp only [List.toFinset_append, Finset.mem_union, List.mem_toFinset, List.mem_map,
    List.mem_filter, decide_not, Bool.not_eq_eq_eq_not, Bool.not_true, decide_eq_false_iff_not]
  constructor
  · rintro (hx | ⟨t, ⟨ht, hpred⟩, rfl⟩)
    · exact Or.inl hx
    · exact Or.inr ⟨t, ht, rfl⟩
  · rintro (hx | ⟨t, ht, rfl⟩)
    · exact Or.inl hx
    · by_cases hmem : t.id ∈ ids
      · exact Or.inl hmem
      · exact Or.inr ⟨t, ⟨ht, hmem⟩, rfl⟩

/-- The distinct ids of the fetcher's result are the seen set united with
the ids of the pages actually fetched. -/
lemma getAllTradesAux_toFinset (pages : List (List Trade)) :
    ∀ (ids : List Nat) (acc : List Trade) (et : Option Nat),
      acc.map Trade.id = ids →
      ((getAllTradesAux ids acc et pages).1.map Trade.id).toFinset
        = ids.toFinset ∪
          ((pages.take (getAllTradesAux ids acc et pages).2.length).flatten.map
            Trade.id).toFinset := by
  induction pages with
  | nil =>
      intro ids acc et hacc
      rw [getAllTradesAux, hacc]
      simp
  | cons page rest ih =>
      intro ids acc et hacc
      have hacc1 : (acc ++ page.filter (fun r => r.id ∉ ids)).map Trade.id
          = ids ++ (page.filter (fun r => r.id ∉ ids)).map Trade.id := by
        rw [List.map_append, hacc]
      by_cases hz : page.length = 0
      · simp only [getAllTradesAux, if_pos hz]
        rw [hacc1, toFinset_ids_filter]
        simp
      · by_cases hl : page.length < 100
        · simp only [getAllTradesAux, if_neg hz, if_pos hl]
          rw [hacc1, toFinset_ids_filter]
          simp
        · simp only [getAllTradesAux, if_neg hz, if_neg hl]
          rw [ih _ _ _ hacc1, toFinset_ids_filter]
          simp only [List.length_cons, List.take_succ_cons, List.flatten_cons,
            List.map_append, List.toFinset_append]
          rw [Finset.union_assoc]

/-- The fetch loop makes exactly one request per full page plus the final
short (or empty) page. -/
lemma getAllTradesAux_length (front : List (List Trade)) :
    ∀ (ids : List Nat) (acc : List Trade) (et : Option Nat)
      (p : List Trade) (rest : List (List Trade)),
      (∀ q ∈ front, 100 ≤ q.length) → p.length < 100 →
      (getAllTradesAux ids acc et (front ++ p :: rest)).2.length = front.length + 1 := by
  induction front with
  | nil =>
      intro ids acc et p rest hfront hp
      by_cases hz : p.length = 0
      · simp [getAllTradesAux, hz]
      · simp [getAllTradesAux, hz, hp]
  | cons q front ih =>
      intro ids acc et p rest hfront hp
      have hq : 100 ≤ q.length := hfront q (List.mem_cons_self _ _)
      have hz : ¬ q.length = 0 := by omega
      have hl : ¬ q.length < 100 := by omega
      simp only [List.cons_append, getAllTradesAux, if_neg hz, if_neg hl, List.length_cons,
        List.append_eq]
      rw [ih _ _ _ p rest (fun r hr => hfront r (List.mem_cons_of_mem _ hr)) hp]

/-- The first request of the fetch loop uses the `end_time` it was started
with. -/
lemma getAllTradesAux_endTimes_head (pages : List (List Trade))
    (ids : List Nat) (acc : List Trade) (et : Option Nat) (h : pages ≠ []) :
    (getAllTradesAux ids acc et pages).2.head? = some et := by
  match pages with
  | [] => exact absurd rfl h
  | page :: rest =>
      by_cases hz : page.length = 0
      · simp [getAllTradesAux, hz]
      · by_cases hl : page.length < 100
        · simp [getAllTradesAux, hz, hl]
        · simp [getAllTradesAux, hz, hl]

/-- Every request after the first uses the minimum timestamp of the page
received by the previous request. -/
lemma getAllTradesAux_endTimes_get (pages : List (List Trade)) :
    ∀ (ids : List Nat) (acc : List Trade) (et : Option Nat) (i : Nat),
      i + 1 < (getAllTradesAux ids acc et pages).2.length →
      (getAllTradesAux ids acc et pages).2[i+1]? =
        some (some (minTime (pages[i]?.getD []))) := by
  induction pages with
  | nil =>
      intro ids acc et i h
      rw [getAllTradesAux] at h
      simp at h
  | cons page rest ih =>
      intro ids acc et i h
      by_cases hz : page.length = 0
      · rw [getAllTradesAux, if_pos hz] at h
        simp at h
      · by_cases hl : page.length < 100
        · rw [getAllTradesAux, if_neg hz, if_pos hl] at h
          simp at h
        · rw [getAllTradesAux, if_neg hz, if_neg hl] at h ⊢
          simp only [List.length_cons] at h
          match i with
          | 0 =>
              have hne : (getAllTradesAux (ids ++ (page.filter (fun r => r.id ∉ ids)).map Trade.id)
                  (acc ++ page.filter (fun r => r.id ∉ ids)) (some (minTime page)) rest).2 ≠ [] := by
                intro hx
                rw [hx] at h
                simp at h
              have hrest : rest ≠ [] := by
                intro hx
                rw [hx, getAllTradesAux] at hne
                exact hne rfl
              have hhead := getAllTradesAux_endTimes_head rest
                (ids ++ (page.filter (fun r => r.id ∉ ids)).map Trade.id)
                (acc ++ page.filter (fun r => r.id ∉ ids)) (some (minTime page)) hrest
              simp only [List.getElem?_cons_succ, List.getElem?_cons_zero, Option.getD_some]
              rw [← List.head?_eq_getElem?]
              exact hhead
          | j + 1 =>
              simp only [List.getElem?_cons_succ]
              exact ih _ _ _ j (by omega)

/-- When a list of orders contains no order of the requested side,
`get_max_order_price` returns its sentinel `0.0`. -/
lemma getMaxOrderPrice_no_match (s : String) :
    ∀ orders : List Order, (∀ o ∈ orders, o.side ≠ s) →
      getMaxOrderPrice orders s = 0 := by
  intro orders
  induction orders with
  | nil => intro h; rfl
  | cons o rest ih =>
      intro h
      have ho : ¬ (o.side = s ∧ (0 : ℚ) < o.price) :=
        fun hc => h o (List.mem_cons_self _ _) hc.1
      unfold getMaxOrderPrice
      simp only [List.foldl_cons, if_neg ho]
      exact ih (fun x hx => h x (List.mem_cons_of_mem _ hx))

/-- When a list of orders contains no order of the requested side,
`get_min_order_price` returns its sentinel `999999`. -/
lemma getMinOrderPrice_no_match (s : String) :
    ∀ orders : List Order, (∀ o ∈ orders, o.side ≠ s) →
      getMinOrderPrice orders s = 999999 := by
  intro orders
  induction orders with
  | nil => intro h; rfl
  | cons o rest ih =>
      intro h
      have ho : ¬ (o.side = s ∧ o.price < (999999 : ℚ)) :=
        fun hc => h o (List.mem_cons_self _ _) hc.1
      unfold getMinOrderPrice
      simp only [List.foldl_cons, if_neg ho]
      exact ih (fun x hx => h x (List.mem_cons_of_mem _ hx))

/-! ## Claim theorems -/

/-- C1, counterexample: with five open sell (monitored-side) orders and no
buy orders, a `run_sell` tick still places a sixth sell order (together
with its hedge buy), so the engine does not classify rungs by the
monitored side, it seeds although monitored-side orders are open, and the
monitored-side open-order count exceeds five. -/
theorem c1_counterexample :
    (getOrdersOfSide
      [Order.mk "sell" 1, Order.mk "sell" 2, Order.mk "sell" 3,
       Order.mk "sell" 4, Order.mk "sell" 5] "sell").length = 5 ∧
    sellTick 1 (1/100) (1/100) ⟨true, 10, 10, true, 0⟩
      [Order.mk "sell" 1, Order.mk "sell" 2, Order.mk "sell" 3,
       Order.mk "sell" 4, Order.mk "sell" 5] =
      [Event.poll, Event.place "sell" 10 1 true,
       Event.place "buy" (10 * (1 - 1/100)) 1 true] ∧
    (getOrdersOfSide
      (applyEvents
        [Order.mk "sell" 1, Order.mk "sell" 2, Order.mk "sell" 3,
         Order.mk "sell" 4, Order.mk "sell" 5]
        (sellTick 1 (1/100) (1/100) ⟨true, 10, 10, true, 0⟩
          [Order.mk "sell" 1, Order.mk "sell" 2, Order.mk "sell" 3,
           Order.mk "sell" 4, Order.mk "sell" 5])) "sell").length = 6 :=
  ⟨rfl, rfl, rfl⟩

/-- C1 (amended): the orders `run_sell` classifies for seeding and for the
cap are the counter-side (buy) orders: it seeds unconditionally exactly
when no buy order is open, it takes no action when five or more buy
orders are open, and across any sequence of ticks (with the open-order
set updated by the tick's own successful placements) the number of open
buy orders never exceeds five.  The monitored-side (sell) count is not
capped. -/
theorem c1_counter_side_cap (number rate uprate : ℚ) :
    (∀ (inp : TickInput) (orders : List Order), inp.fetchOk = true →
       getOrdersOfSide orders "buy" = [] →
       sellTick number rate uprate inp orders =
         Event.poll :: Event.place "sell" inp.bid number inp.seedOk ::
           (if inp.seedOk then
             hedgeEvents "buy" (inp.bid * (1 - rate)) number inp.hedgeFailures
            else []))
    ∧ (∀ (inp : TickInput) (orders : List Order), inp.fetchOk = true →
       5 ≤ (getOrdersOfSide orders "buy").length →
       sellTick number rate uprate inp orders = [Event.poll])
    ∧ (∀ (orders : List Order) (inps : List TickInput),
       (getOrdersOfSide orders "buy").length ≤ 5 →
       (getOrdersOfSide (runSellTicks number rate uprate orders inps) "buy").length ≤ 5) :=
  ⟨fun inp orders hf h0 => sellTick_seed number rate uprate inp orders hf h0,
   fun inp orders hf h5 => sellTick_full number rate uprate inp orders hf h5,
   fun orders inps h => runSellTicks_buy_cap number rate uprate inps orders h⟩

/-- C1 witness: the amended theorem applied at concrete inputs. -/
theorem c1_witness :
    sellTick 1 (1/100) (1/100) ⟨true, 10, 10, true, 0⟩ [] =
      [Event.poll, Event.place "sell" 10 1 true,
       Event.place "buy" (10 * (1 - 1/100)) 1 true] ∧
    (getOrdersOfSide (runSellTicks 1 (1/100) (1/100) []
      [⟨true, 10, 10, true, 0⟩, ⟨true, 20, 20, true, 0⟩]) "buy").length ≤ 5 :=
  ⟨(c1_counter_side_cap 1 (1/100) (1/100)).1 ⟨true, 10, 10, true, 0⟩ [] rfl rfl,
   (c1_counter_side_cap 1 (1/100) (1/100)).2.2 []
     [⟨true, 10, 10, true, 0⟩, ⟨true, 20, 20, true, 0⟩] (Nat.zero_le 5)⟩

/-- C2: whenever a tick of either loop contains a successful rung
placement (a sell in sell-mode, a buy in buy-mode), that placement used
the configured size, and the tick consists of exactly the poll, the rung
placement, and the hedge retry loop on the opposite side at the rung
price times `1 - rate` (sell-mode) / `1 + rate` (buy-mode) with the same
size; the retry loop is a sequence of failed placements each followed by
a 1-second sleep, ends with its single successful placement, and contains
no poll — so no market re-read or rung evaluation happens between the
rung placement and the successful hedge. -/
theorem c2_hedge_follows_rung (number rate uprate : ℚ) :
    (∀ (inp : TickInput) (orders : List Order) (p q : ℚ),
       Event.place "sell" p q true ∈ sellTick number rate uprate inp orders →
       q = number ∧
       sellTick number rate uprate inp orders =
         Event.poll :: Event.place "sell" p number true ::
           hedgeEvents "buy" (p * (1 - rate)) number inp.hedgeFailures)
    ∧ (∀ (inp : TickInput) (orders : List Order) (p q : ℚ),
       Event.place "buy" p q true ∈ buyTick number rate uprate inp orders →
       q = number ∧
       buyTick number rate uprate inp orders =
         Event.poll :: Event.place "buy" p number true ::
           hedgeEvents "sell" (p * (1 + rate)) number inp.hedgeFailures)
    ∧ (∀ (side : String) (price qty : ℚ) (n : Nat),
       Event.poll ∉ hedgeEvents side price qty n ∧
       hedgeEvents side price qty n =
         (List.replicate n [Event.place side price qty false, Event.sleep1]).flatten
           ++ [Event.place side price qty true]) :=
  ⟨fun inp orders p q h => sellTick_succ_sell number rate uprate inp orders p q h,
   fun inp orders p q h => buyTick_succ_buy number rate uprate inp orders p q h,
   fun side price qty n =>
     ⟨poll_not_mem_hedgeEvents side price qty n, hedgeEvents_eq_replicate side price qty n⟩⟩

/-- C2 witness: a concrete sell-mode tick with two hedge failures. -/
theorem c2_witness :
    sellTick 1 (1/100) (1/100) ⟨true, 10, 10, true, 2⟩ [] =
      Event.poll :: Event.place "sell" 10 1 true ::
        hedgeEvents "buy" (10 * (1 - 1/100)) 1 2 :=
  ((c2_hedge_follows_rung 1 (1/100) (1/100)).1 ⟨true, 10, 10, true, 2⟩ [] 10 1
    (List.mem_cons_of_mem _ (List.mem_cons_self _ _))).2

/-- C3: at the failing input (buy-mode tick, fetch succeeded, no open
sell orders) the seed branch of `run_buy` raises `AttributeError` on the
misspelled `fc.palce_order`, the surrounding handler swallows it, and the
tick places nothing — it does not place a buy at the best ask, so
`run_buy` is not the mirror image of `run_sell`. -/
theorem c3_palce_order_attribute_error :
    buyTick 1 (1/100) (1/100) ⟨true, 10, 10, true, 0⟩ [] =
      [Event.poll, Event.attrError "palce_order"] ∧
    countSuccPlaces "buy" (buyTick 1 (1/100) (1/100) ⟨true, 10, 10, true, 0⟩ []) = 0 :=
  ⟨rfl, rfl⟩

/-- C4, counterexample: on the envelope `{success: false, error: "E"}`
the client raises the builtin generic `Exception` (constructor
`PyErr.exception` of the model) carrying `"E"` — not a typed failure. -/
theorem c4_counterexample :
    processResponse (α := Nat) ⟨200, "", some ⟨false, 0, "E"⟩⟩ =
      Except.error (PyErr.exception "E") ∧
    (PyErr.exception "E").isGenericException = true :=
  ⟨rfl, rfl⟩

/-- C4 (amended): for every parseable envelope, if `success` is true the
client returns the envelope's `result` unchanged; if `success` is false
it raises the generic builtin `Exception` whose message is exactly the
envelope's `error` string. -/
theorem c4_envelope_roundtrip {α : Type} (r : HttpResponse α) (d : Envelope α)
    (hb : r.jsonBody = some d) :
    (d.success = true → processResponse r = Except.ok d.result) ∧
    (d.success = false → processResponse r = Except.error (PyErr.exception d.error)) := by
  constructor <;> intro h <;> simp [processResponse, hb, h]

/-- C4 witness: a concrete success envelope round-trips its result. -/
theorem c4_witness :
    processResponse (α := Nat) ⟨200, "", some ⟨true, 7, ""⟩⟩ = Except.ok 7 :=
  (c4_envelope_roundtrip ⟨200, "", some ⟨true, 7, ""⟩⟩ ⟨true, 7, ""⟩ rfl).1 rfl

/-- C5, counterexample: with five open buy orders at 100, no open sell
orders (so the monitored-side rung count, 0, is below the cap) and best
bid 200 far above the anchor 101, the tick places nothing, because the
code gates the anchor branch on the count of buy orders, not on the rung
count. -/
theorem c5_counterexample :
    sellTick 1 (1/100) (1/100) ⟨true, 200, 0, true, 0⟩
      [Order.mk "buy" 100, Order.mk "buy" 100, Order.mk "buy" 100,
       Order.mk "buy" 100, Order.mk "buy" 100] = [Event.poll] ∧
    (getOrdersOfSide
      [Order.mk "buy" 100, Order.mk "buy" 100, Order.mk "buy" 100,
       Order.mk "buy" 100, Order.mk "buy" 100] "sell").length = 0 ∧
    getMaxOrderPrice
      [Order.mk "buy" 100, Order.mk "buy" 100, Order.mk "buy" 100,
       Order.mk "buy" 100, Order.mk "buy" 100] "buy" * (1 + 1/100) < 200 := by
  refine ⟨rfl, rfl, ?_⟩
  rw [show getMaxOrderPrice
      [Order.mk "buy" 100, Order.mk "buy" 100, Order.mk "buy" 100,
       Order.mk "buy" 100, Order.mk "buy" 100] "buy" = 100 from rfl]
  norm_num

/-- C5 (amended): in sell-mode, when between one and four buy orders are
open, the tick computes the anchor as the maximum open buy price times
`1 + uprate` and places a sell rung at the current best bid (followed by
the hedge-buy retry loop at that bid times `1 - rate`) exactly when the
best bid is strictly greater than the anchor; otherwise it places
nothing. -/
theorem c5_trigger_threshold (number rate uprate : ℚ) (inp : TickInput)
    (orders : List Order) (hf : inp.fetchOk = true)
    (hne : (getOrdersOfSide orders "buy").length ≠ 0)
    (hlt : (getOrdersOfSide orders "buy").length < 5) :
    (getMaxOrderPrice orders "buy" * (1 + uprate) < inp.bid →
       sellTick number rate uprate inp orders =
         Event.poll :: Event.place "sell" inp.bid number inp.seedOk ::
           (if inp.seedOk then
             hedgeEvents "buy" (inp.bid * (1 - rate)) number inp.hedgeFailures
            else []))
    ∧ (¬ getMaxOrderPrice orders "buy" * (1 + uprate) < inp.bid →
       sellTick number rate uprate inp orders = [Event.poll]) :=
  ⟨fun hgt => sellTick_trigger_hit number rate uprate inp orders hf hne hlt hgt,
   fun hle => sellTick_trigger_miss number rate uprate inp orders hf hne hlt hle⟩

/-- C5 witness: the spec's concrete example — one open buy at 100,
trigger rate 0.01, anchor 101: best bid 101.5 places a sell at 101.5 with
a hedge buy at 101.5 times 0.99; best bid 100.5 places nothing. -/
theorem c5_witness :
    sellTick 1 (1/100) (1/100) ⟨true, 203/2, 0, true, 0⟩ [Order.mk "buy" 100] =
      [Event.poll, Event.place "sell" (203/2) 1 true,
       Event.place "buy" (203/2 * (1 - 1/100)) 1 true] ∧
    sellTick 1 (1/100) (1/100) ⟨true, 201/2, 0, true, 0⟩ [Order.mk "buy" 100] =
      [Event.poll] := by
  constructor
  · exact (c5_trigger_threshold 1 (1/100) (1/100) ⟨true, 203/2, 0, true, 0⟩
      [Order.mk "buy" 100] rfl (by decide) (by decide)).1
      (by rw [show getMaxOrderPrice [Order.mk "buy" 100] "buy" = 100 from rfl]; norm_num)
  · exact (c5_trigger_threshold 1 (1/100) (1/100) ⟨true, 201/2, 0, true, 0⟩
      [Order.mk "buy" 100] rfl (by decide) (by decide)).2
      (by rw [show getMaxOrderPrice [Order.mk "buy" 100] "buy" = 100 from rfl]; norm_num)

/-- C6: for every page sequence (each page's ids distinct, per the trade
invariant), `get_all_trades` returns each id at most once and its length
is the number of distinct ids across the pages actually fetched; it stops
with the first page strictly shorter than 100 trades (zero included),
making one request per preceding full page plus that one; and every
request after the first uses as `end_time` the minimum timestamp of the
previous request's page. -/
theorem c6_get_all_trades :
    (∀ pages : List (List Trade), (∀ p ∈ pages, (p.map Trade.id).Nodup) →
       ((getAllTrades pages).map Trade.id).Nodup ∧
       (getAllTrades pages).length =
         (((fetchedPages pages).flatten.map Trade.id).toFinset).card)
    ∧ (∀ (front : List (List Trade)) (p : List Trade) (rest : List (List Trade)),
       (∀ q ∈ front, 100 ≤ q.length) → p.length < 100 →
       numRequests (front ++ p :: rest) = front.length + 1)
    ∧ (∀ (pages : List (List Trade)) (i : Nat), i + 1 < numRequests pages →
       (requestEndTimes pages)[i+1]? = some (some (minTime (pages[i]?.getD [])))) := by
  refine ⟨?_, ?_, ?_⟩
  · intro pages hnd
    have h1 : ((getAllTrades pages).map Trade.id).Nodup :=
      getAllTradesAux_nodup pages [] [] none rfl hnd List.nodup_nil
    refine ⟨h1, ?_⟩
    have h2 : ((getAllTrades pages).map Trade.id).toFinset =
        ((fetchedPages pages).flatten.map Trade.id).toFinset := by
      have h := getAllTradesAux_toFinset pages [] [] none rfl
      simpa [getAllTrades, fetchedPages, numRequests, requestEndTimes] using h
    calc (getAllTrades pages).length
        = ((getAllTrades pages).map Trade.id).length := by rw [List.length_map]
      _ = ((getAllTrades pages).map Trade.id).toFinset.card :=
          (List.toFinset_card_of_nodup h1).symm
      _ = (((fetchedPages pages).flatten.map Trade.id).toFinset).card := by rw [h2]
  · intro front p rest hf hp
    exact getAllTradesAux_length front [] [] none p rest hf hp
  · intro pages i h
    exact getAllTradesAux_endTimes_get pages [] [] none i h

set_option maxRecDepth 4000 in
/-- C6 witness: a full page of 100 trades followed by a short page that
repeats id 99; the fetch makes two requests, the second with the first
page minimum timestamp, and returns 101 distinct ids. -/
theorem c6_witness :
    ((getAllTrades [(List.range 100).map (fun i => Trade.mk i (i + 1)),
        [Trade.mk 99 2, Trade.mk 100 1]]).map Trade.id).Nodup ∧
    numRequests [(List.range 100).map (fun i => Trade.mk i (i + 1)),
        [Trade.mk 99 2, Trade.mk 100 1]] = 2 ∧
    (requestEndTimes [(List.range 100).map (fun i => Trade.mk i (i + 1)),
        [Trade.mk 99 2, Trade.mk 100 1]])[1]? = some (some 1) := by
  refine ⟨(c6_get_all_trades.1 _ (by decide)).1, ?_, ?_⟩
  · exact c6_get_all_trades.2.1 [(List.range 100).map (fun i => Trade.mk i (i + 1))]
      [Trade.mk 99 2, Trade.mk 100 1] [] (by decide) (by decide)
  · exact c6_get_all_trades.2.2 [(List.range 100).map (fun i => Trade.mk i (i + 1)),
      [Trade.mk 99 2, Trade.mk 100 1]] 0 (by decide)

/-- C7: the signature header is the HMAC-SHA256 hex digest, keyed by the
api secret, of the bytes of the decimal timestamp, then the method, then
the path with query string, then the raw body bytes when a body is
present; the key header is the api key, the timestamp header the same
decimal timestamp; the percent-encoded subaccount header is attached
exactly when a subaccount name is configured (present and non-empty); and
for fixed credentials, method, path, body and timestamp the computed
headers are identical across computations. -/
theorem c7_sign_request (hmacHex : String → List Nat → String)
    (apiKey apiSecret : String) (sub : Option String) (ts : Nat)
    (req req2 : PreparedRequest) :
    ((signRequest hmacHex apiKey apiSecret sub ts req).signHeader =
       hmacHex apiSecret
         (strBytes (toString ts ++ req.method ++ req.pathUrl) ++ req.body.getD []))
    ∧ (signRequest hmacHex apiKey apiSecret sub ts req).keyHeader = apiKey
    ∧ (signRequest hmacHex apiKey apiSecret sub ts req).tsHeader = toString ts
    ∧ (sub = none →
        (signRequest hmacHex apiKey apiSecret sub ts req).subaccountHeader = none)
    ∧ (∀ s : String, sub = some s → s ≠ "" →
        (signRequest hmacHex apiKey apiSecret sub ts req).subaccountHeader =
          some (urlQuote s))
    ∧ (req.method = req2.method → req.pathUrl = req2.pathUrl → req.body = req2.body →
        signRequest hmacHex apiKey apiSecret sub ts req =
          signRequest hmacHex apiKey apiSecret sub ts req2) := by
  refine ⟨?_, rfl, rfl, ?_, ?_, ?_⟩
  · have hpay : signaturePayload ts req =
        strBytes (toString ts ++ req.method ++ req.pathUrl) ++ req.body.getD [] := by
      obtain ⟨m, pu, b⟩ := req
      match b with
      | none => simp [signaturePayload]
      | some bs =>
          by_cases h : bs = []
          · subst h; simp [signaturePayload]
          · simp [signaturePayload, h]
    simp [signRequest, hpay]
  · intro h
    simp [signRequest, h]
  · intro s hs hne
    simp [signRequest, hs, hne]
  · intro h1 h2 h3
    obtain ⟨m, pu, b⟩ := req
    obtain ⟨m2, pu2, b2⟩ := req2
    dsimp only at h1 h2 h3
    subst h1; subst h2; subst h3
    rfl

/-- C7 witness: the determinism and subaccount parts at a concrete
request. -/
theorem c7_witness :
    signRequest (fun _ p => toString p) "key" "secret" (some "sub one") 1000
        ⟨"POST", "/api/orders", some [123]⟩ =
      signRequest (fun _ p => toString p) "key" "secret" (some "sub one") 1000
        ⟨"POST", "/api/orders", some [123]⟩ ∧
    (signRequest (fun _ p => toString p) "key" "secret" (some "sub one") 1000
        ⟨"POST", "/api/orders", some [123]⟩).subaccountHeader =
      some (urlQuote "sub one") := by
  constructor
  · exact (c7_sign_request (fun _ p => toString p) "key" "secret" (some "sub one") 1000
      ⟨"POST", "/api/orders", some [123]⟩ ⟨"POST", "/api/orders", some [123]⟩).2.2.2.2.2
      rfl rfl rfl
  · exact (c7_sign_request (fun _ p => toString p) "key" "secret" (some "sub one") 1000
      ⟨"POST", "/api/orders", some [123]⟩ ⟨"POST", "/api/orders", some [123]⟩).2.2.2.2.1
      "sub one" rfl (by decide)

/-- C8, counterexample: a status-200 response with an unparseable body
makes the client re-raise the JSON parse error (`ValueError`), not an
HTTP error carrying the status code and text. -/
theorem c8_counterexample :
    processResponse (α := Nat) ⟨200, "not json", none⟩ = Except.error PyErr.valueError ∧
    processResponse (α := Nat) ⟨200, "not json", none⟩ ≠
      Except.error (PyErr.httpError 200 "not json") := by
  refine ⟨rfl, ?_⟩
  intro h
  rw [show processResponse (α := Nat) ⟨200, "not json", none⟩ =
    Except.error PyErr.valueError from rfl] at h
  exact PyErr.noConfusion (Except.error.inj h)

/-- C8 (amended): for a response whose body is not parseable JSON, the
client surfaces the HTTP error carrying the status code and text when the
status is 4xx/5xx; when the status indicates success it re-raises the
JSON parse error instead. -/
theorem c8_unparseable_body {α : Type} (r : HttpResponse α) (hb : r.jsonBody = none) :
    (400 ≤ r.status → processResponse r = Except.error (PyErr.httpError r.status r.text)) ∧
    (r.status < 400 → processResponse r = Except.error PyErr.valueError) := by
  constructor
  · intro h
    simp [processResponse, hb, raiseForStatus, h]
  · intro h
    have h' : ¬ 400 ≤ r.status := by omega
    simp [processResponse, hb, raiseForStatus, h']

/-- C8 witness: a concrete 500 response with an unparseable body. -/
theorem c8_witness :
    processResponse (α := Nat) ⟨500, "oops", none⟩ =
      Except.error (PyErr.httpError 500 "oops") :=
  (c8_unparseable_body ⟨500, "oops", none⟩ rfl).1 (by norm_num)

/-- C9: when no order of the requested side is present the extremum
helpers return their fixed sentinels (`0.0` for the maximum, `999999` for
the minimum); and the engine consults the anchor only in branches that
require counter-side orders to be open, so when none are open the
sell-mode tick is the unconditional seed at the best bid and the buy-mode
tick is the failed `palce_order` lookup — in neither case does the
sentinel gate a rung placement. -/
theorem c9_sentinel_safety :
    (∀ (orders : List Order) (s : String), (∀ o ∈ orders, o.side ≠ s) →
       getMaxOrderPrice orders s = 0 ∧ getMinOrderPrice orders s = 999999)
    ∧ (∀ (number rate uprate : ℚ) (inp : TickInput) (orders : List Order),
       inp.fetchOk = true → getOrdersOfSide orders "buy" = [] →
       sellTick number rate uprate inp orders =
         Event.poll :: Event.place "sell" inp.bid number inp.seedOk ::
           (if inp.seedOk then
             hedgeEvents "buy" (inp.bid * (1 - rate)) number inp.hedgeFailures
            else []))
    ∧ (∀ (number rate uprate : ℚ) (inp : TickInput) (orders : List Order),
       inp.fetchOk = true → getOrdersOfSide orders "sell" = [] →
       buyTick number rate uprate inp orders =
         [Event.poll, Event.attrError "palce_order"]) :=
  ⟨fun orders s h => ⟨getMaxOrderPrice_no_match s orders h,
     getMinOrderPrice_no_match s orders h⟩,
   fun number rate uprate inp orders hf h0 =>
     sellTick_seed number rate uprate inp orders hf h0,
   fun number rate uprate inp orders hf h0 =>
     buyTick_seed number rate uprate inp orders hf h0⟩

/-- C9 witness: the sentinels on a list with no matching side, and a
buy-mode tick with no open sell orders. -/
theorem c9_witness :
    getMaxOrderPrice [Order.mk "sell" 3] "buy" = 0 ∧
    getMinOrderPrice [Order.mk "sell" 3] "buy" = 999999 ∧
    buyTick 1 (1/100) (1/100) ⟨true, 10, 10, true, 0⟩ [Order.mk "buy" 7] =
      [Event.poll, Event.attrError "palce_order"] :=
  ⟨(c9_sentinel_safety.1 [Order.mk "sell" 3] "buy" (by decide)).1,
   (c9_sentinel_safety.1 [Order.mk "sell" 3] "buy" (by decide)).2,
   c9_sentinel_safety.2.2 1 (1/100) (1/100) ⟨true, 10, 10, true, 0⟩
     [Order.mk "buy" 7] rfl rfl⟩

/-- C10: the module's final statement calls `run`, which is bound neither
at module level (only `run_sell` and `run_buy` are) nor by builtins, so
startup raises `NameError` and neither trading loop is entered. -/
theorem c10_startup_name_error :
    startupResult = StartupOutcome.nameError "run" ∧
    "run" ∉ moduleGlobals ∧
    "run_sell" ∈ moduleGlobals ∧ "run_buy" ∈ moduleGlobals :=
  ⟨rfl, by decide, by decide, by decide⟩

end Ftx
